import Mathlib

/-!
Verification of the task orchestration and scoring engine of the
SEOAnalysisTools repository: a shallow embedding of
`src/main/typescript/services/task-manager.ts` and
`src/main/typescript/models/database.ts`, followed by theorems that settle
the specified properties against it.

Modelling conventions:
* TypeScript `number` values (weights, scores) are modelled by rationals;
  the overall score, produced by `Math.round`, is an integer.
* Timestamps are milliseconds since the epoch, as naturals.  The source
  stores ISO-8601 strings whose lexicographic order coincides with
  chronological order, so numeric comparison is a faithful model of the
  string comparisons performed by the source.
* The lowdb JSON store `db.data` is an explicit record of lists; in-place
  mutation becomes functional update of the first matching list element,
  matching `Array.prototype.find` followed by field assignment.
-/

namespace SEOAnalysis

/-- Priority of a check item (`SEOCheckItem.priority` in `core/types.ts`). -/
inductive Priority where
  | high
  | medium
  | low
deriving DecidableEq, Repr

/-- Letter grade (`'A' | 'B' | 'C' | 'D' | 'E'`). -/
inductive Grade where
  | A
  | B
  | C
  | D
  | E
deriving DecidableEq, Repr

/-- `SEOCheckItem` from `core/types.ts`.  The opaque `evidence` blob plays no
role in the orchestration core and is omitted. -/
structure SEOCheckItem where
  id : String
  label : String
  weight : ℚ
  score : ℚ
  advice : String
  priority : Priority
deriving DecidableEq, Repr

/-- `SEOCheckGroup` from `core/types.ts`. -/
structure SEOCheckGroup where
  group : String
  weight : ℚ
  score : ℚ
  items : List SEOCheckItem
deriving DecidableEq, Repr

/-- JavaScript `Math.round`: round half toward positive infinity. -/
def jsRound (q : ℚ) : ℤ := ⌊q + 1 / 2⌋

/-- The `groupMaxScore` computation in `TaskManager.calculateScore`:
`group.items.reduce((sum, item) => sum + item.weight, 0)`. -/
def groupMaxScore (g : SEOCheckGroup) : ℚ :=
  g.items.foldl (fun sum it => sum + it.weight) 0

/-- The warnings the inner loop of `calculateScore` collects for one group:
one string `"<group.name>: <item.advice>"` for each item with
`item.score < item.weight && item.priority === 'high'`, in item order. -/
def groupWarnings (g : SEOCheckGroup) : List String :=
  g.items.filterMap fun it =>
    if it.score < it.weight ∧ it.priority = Priority.high then
      some (g.group ++ ": " ++ it.advice)
    else none

/-- Result record of `TaskManager.calculateScore`. -/
structure ScoreResult where
  overallScore : ℤ
  grade : Grade
  warnings : List String
deriving DecidableEq, Repr

/-- One iteration of the `for (const group of checks)` loop of
`calculateScore`, acting on the accumulator
`(totalWeightedScore, totalPossibleWeight, warnings)`. -/
def scoreStep : ℚ × ℚ × List String → SEOCheckGroup → ℚ × ℚ × List String
  | (tws, tpw, ws), g =>
    if 0 < groupMaxScore g then
      (tws + g.score / groupMaxScore g * g.weight, tpw + g.weight, ws ++ groupWarnings g)
    else (tws, tpw, ws)

/-- `TaskManager.calculateScore` from `services/task-manager.ts`. -/
def calculateScore (checks : List SEOCheckGroup) : ScoreResult :=
  let acc := checks.foldl scoreStep (0, 0, [])
  let totalWeightedScore := acc.1
  let totalPossibleWeight := acc.2.1
  let warnings := acc.2.2
  let overallScore : ℤ :=
    if 0 < totalPossibleWeight then jsRound (totalWeightedScore / totalPossibleWeight * 100)
    else 0
  let grade : Grade :=
    if overallScore ≥ 90 then .A
    else if overallScore ≥ 80 then .B
    else if overallScore ≥ 70 then .C
    else if overallScore ≥ 60 then .D
    else .E
  ⟨overallScore, grade, warnings⟩

/-- Specification-side definition: the groups included in scoring, namely
those with `groupMaxScore = sum(items[].weight) > 0`. -/
def includedGroups (checks : List SEOCheckGroup) : List SEOCheckGroup :=
  checks.filter fun g => 0 < groupMaxScore g

/-- Specification-side `totalWeightedScore`: each included group contributes
`(group.score / groupMaxScore) * group.weight`. -/
def totalWeightedScore (checks : List SEOCheckGroup) : ℚ :=
  ((includedGroups checks).map fun g => g.score / groupMaxScore g * g.weight).sum

/-- Specification-side `totalPossibleWeight`: each included group contributes
`group.weight`. -/
def totalPossibleWeight (checks : List SEOCheckGroup) : ℚ :=
  ((includedGroups checks).map fun g => g.weight).sum

/-- Specification-side overall score:
`round(totalWeightedScore / totalPossibleWeight * 100)` when
`totalPossibleWeight > 0`, else `0`. -/
def specOverallScore (checks : List SEOCheckGroup) : ℤ :=
  if 0 < totalPossibleWeight checks then
    jsRound (totalWeightedScore checks / totalPossibleWeight checks * 100)
  else 0

/-- Specification-side grade thresholds, inclusive on the lower bound. -/
def specGrade (s : ℤ) : Grade :=
  if 90 ≤ s then .A
  else if 80 ≤ s then .B
  else if 70 ≤ s then .C
  else if 60 ≤ s then .D
  else .E

/-- In-order concatenation of the per-group warning lists of the given
groups. -/
def warningsFrom : List SEOCheckGroup → List String
  | [] => []
  | g :: gs => groupWarnings g ++ warningsFrom gs

/-- Task status (`DatabaseSchema.tasks[].status`). -/
inductive TaskStatus where
  | queued
  | running
  | done
  | failed
deriving DecidableEq, Repr

/-- A row of `db.data.tasks` in `models/database.ts`. -/
structure TaskRec where
  id : String
  status : TaskStatus
  requested_url : String
  final_url : Option String := none
  overall_score : Option ℤ := none
  grade : Option Grade := none
  analysis_data : Option String := none
  error_message : Option String := none
  ip_address : String
  user_agent : String
  created_at : ℕ
  completed_at : Option ℕ := none
deriving DecidableEq, Repr

/-- A row of `db.data.rate_limits`. -/
structure RateRec where
  ip_address : String
  hour_key : ℕ
  request_count : ℕ
  created_at : ℕ
deriving DecidableEq, Repr

/-- A row of `db.data.analysis_cache`. -/
structure CacheRec where
  url_hash : String
  url : String
  task_id : String
  cached_at : ℕ
deriving DecidableEq, Repr

/-- The lowdb store `db.data` (the `settings` table is irrelevant to the
claims and omitted). -/
structure DB where
  tasks : List TaskRec
  rate_limits : List RateRec
  analysis_cache : List CacheRec
deriving DecidableEq, Repr

/-- Functional counterpart of `Array.prototype.find` followed by in-place
mutation: rewrite the first element satisfying `p`. -/
def updateFirst (p : α → Bool) (f : α → α) : List α → List α
  | [] => []
  | x :: xs => if p x then f x :: xs else x :: updateFirst p f xs

/-- One hour in milliseconds. -/
def hourMs : ℕ := 3600000

/-- `new Date().toISOString().slice(0, 13)` identifies the UTC calendar hour
of the timestamp; modelled as the hour index since the epoch. -/
def hourKeyOf (now : ℕ) : ℕ := now / hourMs

/-- `dbOperations.insertTask`. -/
def insertTask (id : String) (status : TaskStatus) (requested_url ip_address user_agent : String)
    (now : ℕ) (db : DB) : DB :=
  let t : TaskRec :=
    { id := id, status := status, requested_url := requested_url,
      ip_address := ip_address, user_agent := user_agent, created_at := now }
  { db with tasks := db.tasks ++ [t] }

/-- JavaScript truthiness of a nullable string: `null`, `undefined` and the
empty string are falsy. -/
def strTruthy : Option String → Bool
  | some s => !s.isEmpty
  | none => false

/-- The field assignments of `dbOperations.updateTaskStatus` on the found
task row.  Guards mirror the source: `if (final_url)`, `if (overall_score
!== null)`, `if (grade)` (a grade value is a nonempty string, hence truthy
exactly when present), `if (analysis_data)`, `if (error_message)` — and
`task.completed_at = new Date().toISOString()` is assigned unconditionally. -/
def applyStatusUpdate (status : TaskStatus) (final_url : Option String)
    (overall_score : Option ℤ) (grade : Option Grade) (analysis_data : Option String)
    (error_message : Option String) (now : ℕ) (t : TaskRec) : TaskRec :=
  { t with
    status := status
    final_url := if strTruthy final_url then final_url else t.final_url
    overall_score := if overall_score.isSome then overall_score else t.overall_score
    grade := if grade.isSome then grade else t.grade
    analysis_data := if strTruthy analysis_data then analysis_data else t.analysis_data
    error_message := if strTruthy error_message then error_message else t.error_message
    completed_at := some now }

/-- `dbOperations.updateTaskStatus`: find the task by id and apply the field
assignments; when no task matches, the store is unchanged. -/
def updateTaskStatus (status : TaskStatus) (final_url : Option String)
    (overall_score : Option ℤ) (grade : Option Grade) (analysis_data : Option String)
    (error_message : Option String) (id : String) (now : ℕ) (db : DB) : DB :=
  let upd := applyStatusUpdate status final_url overall_score grade analysis_data error_message now
  { db with tasks := updateFirst (fun t => t.id = id) upd db.tasks }

/-- `dbOperations.getTask`. -/
def getTask (id : String) (db : DB) : Option TaskRec :=
  db.tasks.find? fun t => t.id = id

/-- `dbOperations.getRateLimit`. -/
def getRateLimit (ip_address : String) (hour_key : ℕ) (db : DB) : Option RateRec :=
  db.rate_limits.find? fun r => r.ip_address = ip_address ∧ r.hour_key = hour_key

/-- `dbOperations.updateRateLimit`: bump the existing `(ip, hour)` row, or
push a fresh row with `request_count = 1`. -/
def updateRateLimit (ip_address : String) (hour_key : ℕ) (now : ℕ) (db : DB) : DB :=
  if (getRateLimit ip_address hour_key db).isSome then
    let bump := updateFirst (fun r => r.ip_address = ip_address ∧ r.hour_key = hour_key)
      (fun r => { r with request_count := r.request_count + 1 }) db.rate_limits
    { db with rate_limits := bump }
  else
    let r : RateRec :=
      { ip_address := ip_address, hour_key := hour_key, request_count := 1,
        created_at := now }
    { db with rate_limits := db.rate_limits ++ [r] }

/-- `dbOperations.getCachedAnalysis`: first cache row for the hash whose
`cached_at` is newer than one hour ago; its task must exist with status
`done`, otherwise the lookup degrades to a miss. -/
def getCachedAnalysis (now : ℕ) (url_hash : String) (db : DB) : Option String :=
  match db.analysis_cache.find? fun c => c.url_hash = url_hash ∧ now - hourMs < c.cached_at with
  | some cache =>
    match db.tasks.find? fun t => t.id = cache.task_id ∧ t.status = TaskStatus.done with
    | some task => some task.id
    | none => none
  | none => none

/-- `dbOperations.insertCache`: drop any prior rows for this hash, then push
the new row. -/
def insertCache (url_hash url task_id : String) (now : ℕ) (db : DB) : DB :=
  { db with analysis_cache := (db.analysis_cache.filter fun c => c.url_hash ≠ url_hash) ++
      [{ url_hash := url_hash, url := url, task_id := task_id, cached_at := now }] }

/-- `SEOCheckWeights` from `core/types.ts`. -/
structure SEOCheckWeights where
  technical : ℚ
  content : ℚ
  structuredData : ℚ
  performance : ℚ
  social : ℚ
deriving DecidableEq, Repr

/-- `AnalysisConfig` from `core/types.ts`.  The TypeScript type requires
`weights`, but `checkRateLimit` tests its truthiness, so absence is
meaningful at runtime; modelled with an option. -/
structure AnalysisConfig where
  weights : Option SEOCheckWeights
  renderTimeoutMs : ℕ
  maxAnalysisSeconds : ℕ
  maxHtmlMb : ℚ
  targetSeconds : ℕ
deriving DecidableEq, Repr

/-- The synchronous errors `createTask` throws. -/
inductive CreateError where
  | invalidUrl
  | rateLimitExceeded (limit : ℕ)
deriving DecidableEq, Repr

/-- Message strings of the thrown errors, as in the source. -/
def createErrorMessage : CreateError → String
  | .invalidUrl => "Invalid URL format"
  | .rateLimitExceeded limit =>
      "Rate limit exceeded. Maximum " ++ toString limit ++ " requests per hour."

/-- Character-level prefix test (the kernel-computable core of
`String.startsWith`). -/
def charsHavePrefix : List Char → List Char → Bool
  | [], _ => true
  | _ :: _, [] => false
  | p :: ps, c :: cs => p == c && charsHavePrefix ps cs

/-- `TaskManager.isValidUrl`: `new URL(url)` must succeed and the protocol
must be `http:` or `https:`.  WHATWG URL parsing is an external collaborator;
it is modelled as the URL carrying an explicit http or https scheme prefix,
which agrees with the source on every concrete URL appearing below. -/
def isValidUrl (url : String) : Bool :=
  charsHavePrefix "http://".data url.data || charsHavePrefix "https://".data url.data

/-- `TaskManager.hashUrl`: the SHA-256 hex digest of the raw url string.
The digest is modelled as an injective encoding of its input (an ideal,
collision-free hash): it preserves exactly the equalities of the raw input
strings and performs no normalization, which is the property at stake. -/
def hashUrl (url : String) : String := "sha256:" ++ url

/-- The counter value `checkRateLimit` reads:
`dbOperations.getRateLimit(ip, hourKey)?.request_count || 0`. -/
def rlCount (ip : String) (hk : ℕ) (db : DB) : ℕ :=
  ((getRateLimit ip hk db).map RateRec.request_count).getD 0

/-- The per-hour limit chosen in `checkRateLimit`:
`this.config.weights ? 20 : 5`. -/
def rateLimitOf (cfg : AnalysisConfig) : ℕ :=
  if cfg.weights.isSome then 20 else 5

/-- `TaskManager.checkRateLimit`: read the counter for the caller's ip and
the current hour; at or above the limit, throw without incrementing;
otherwise increment and succeed. -/
def checkRateLimit (cfg : AnalysisConfig) (now : ℕ) (ipAddress : String) (db : DB) :
    Except CreateError DB :=
  let hourKey := hourKeyOf now
  let currentCount := rlCount ipAddress hourKey db
  let limit := rateLimitOf cfg
  if limit ≤ currentCount then .error (.rateLimitExceeded limit)
  else .ok (updateRateLimit ipAddress hourKey now db)

/-- `TaskManager.createTask` up to returning the task id.  The asynchronous
`processTask` dispatch runs outside this call and is modelled by the
separate step functions below.  The result is returned together with the
store state; a thrown error leaves the store exactly as it was when the
throw happened. -/
def createTask (cfg : AnalysisConfig) (now : ℕ) (url ipAddress userAgent newTaskId : String)
    (db : DB) : Except CreateError String × DB :=
  if ¬ isValidUrl url then (.error .invalidUrl, db)
  else
    match checkRateLimit cfg now ipAddress db with
    | .error e => (.error e, db)
    | .ok db1 =>
      let urlHash := hashUrl url
      match getCachedAnalysis now urlHash db1 with
      | some taskId => (.ok taskId, db1)
      | none => (.ok newTaskId, insertTask newTaskId .queued url ipAddress userAgent now db1)

/-- First step of `TaskManager.processTask`:
`updateTaskStatus('running', null, null, null, null, null, taskId)`. -/
def startRunning (taskId : String) (now : ℕ) (db : DB) : DB :=
  updateTaskStatus .running none none none none none taskId now db

/-- Success path of `processTask`: record the results with status `done`,
then cache the analysis under the url hash. -/
def finishSuccess (taskId finalUrl : String) (overallScore : ℤ) (grade : Grade)
    (analysisData : String) (urlHash url : String) (now : ℕ) (db : DB) : DB :=
  insertCache urlHash url taskId now
    (updateTaskStatus .done (some finalUrl) (some overallScore) (some grade)
      (some analysisData) none taskId now db)

/-- Failure path: the `.catch` handler installed by `createTask` records the
error message with status `failed`. -/
def finishFailure (taskId : String) (msg : String) (now : ℕ) (db : DB) : DB :=
  updateTaskStatus .failed none none none none (some msg) taskId now db

/-- Run `checkRateLimit` once per submission time for a single client,
stopping at the first denial. -/
def checkRateLimitSeq (cfg : AnalysisConfig) (ip : String) : List ℕ → DB → Except CreateError DB
  | [], db => .ok db
  | t :: ts, db =>
    match checkRateLimit cfg t ip db with
    | .error e => .error e
    | .ok db1 => checkRateLimitSeq cfg ip ts db1

/-- The empty store. -/
def emptyDB : DB := ⟨[], [], []⟩

/-- The weight configuration shipped in the API routes. -/
def stdWeights : SEOCheckWeights := ⟨30, 25, 10, 25, 10⟩

/-- A configuration that carries a weights object. -/
def cfgWithWeights : AnalysisConfig := ⟨some stdWeights, 10000, 60, 10, 30⟩

/-- A configuration without a weights object. -/
def cfgNoWeights : AnalysisConfig := ⟨none, 10000, 60, 10, 30⟩

/-- Store after a first submission of `http://a.com` at time 1000 from the
empty store: one queued task and one rate-limit row. -/
def dedupDB1 : DB :=
  ⟨[{ id := "task-1", status := .queued, requested_url := "http://a.com",
      ip_address := "203.0.113.7", user_agent := "UA", created_at := 1000 }],
   [{ ip_address := "203.0.113.7", hour_key := 0, request_count := 1, created_at := 1000 }],
   []⟩

/-- Store after the first submission's background analysis ran (running at
1200) and completed successfully (done and cached at 1500). -/
def dedupDB2 : DB :=
  finishSuccess "task-1" "http://a.com/" 80 Grade.B "checks" (hashUrl "http://a.com")
    "http://a.com" 1500 (startRunning "task-1" 1200 dedupDB1)

/-- Store with one queued task, as left by `createTask` just before the
background processing starts. -/
def queuedTaskDB : DB :=
  ⟨[{ id := "task-1", status := .queued, requested_url := "https://example.com",
      ip_address := "203.0.113.7", user_agent := "UA", created_at := 1000 }], [], []⟩

/-- Store with one running task. -/
def runningTaskDB : DB :=
  ⟨[{ id := "task-1", status := .running, requested_url := "https://example.com",
      ip_address := "203.0.113.7", user_agent := "UA", created_at := 1000 }], [], []⟩

/-- Store holding a completed task and a cache entry recorded at time 0. -/
def staleCacheDB : DB :=
  ⟨[{ id := "task-1", status := .done, requested_url := "https://example.com",
      ip_address := "203.0.113.7", user_agent := "UA", created_at := 0 }],
   [],
   [{ url_hash := hashUrl "https://example.com", url := "https://example.com",
      task_id := "task-1", cached_at := 0 }]⟩

/-- Store holding a completed task cached at time 1000. -/
def freshCacheDB : DB :=
  ⟨[{ id := "task-1", status := .done, requested_url := "https://example.com",
      ip_address := "203.0.113.7", user_agent := "UA", created_at := 0 }],
   [],
   [{ url_hash := hashUrl "https://example.com", url := "https://example.com",
      task_id := "task-1", cached_at := 1000 }]⟩

/-- Concrete scorer input used to witness `calculateScore_warnings`. -/
def warningsWitnessChecks : List SEOCheckGroup :=
  [⟨"Technical Foundation", 30, 5,
    [⟨"http_status", "HTTP status", 5, 5, "status ok", Priority.low⟩,
     ⟨"https_usage", "HTTPS", 5, 0, "use https", Priority.high⟩]⟩,
   ⟨"Social Markup", 10, 2,
    [⟨"open_graph_tags", "OG", 6, 2, "add og tags", Priority.high⟩]⟩]

theorem includedGroups_cons_pos {g : SEOCheckGroup} (gs : List SEOCheckGroup)
    (hg : 0 < groupMaxScore g) : includedGroups (g :: gs) = g :: includedGroups gs := by
  simp [includedGroups, List.filter_cons, hg]

theorem includedGroups_cons_nonpos {g : SEOCheckGroup} (gs : List SEOCheckGroup)
    (hg : ¬ 0 < groupMaxScore g) : includedGroups (g :: gs) = includedGroups gs := by
  simp [includedGroups, List.filter_cons, hg]

/-- Closed form of the loop of `calculateScore`: running the fold from an
arbitrary accumulator adds the specification-side totals and appends the
warnings of the included groups. -/
theorem foldl_scoreStep (checks : List SEOCheckGroup) (a b : ℚ) (w : List String) :
    checks.foldl scoreStep (a, b, w) =
      (a + totalWeightedScore checks, b + totalPossibleWeight checks,
        w ++ warningsFrom (includedGroups checks)) := by
  induction checks generalizing a b w with
  | nil =>
    simp [totalWeightedScore, totalPossibleWeight, includedGroups, warningsFrom]
  | cons g gs ih =>
    rw [List.foldl_cons]
    by_cases hg : 0 < groupMaxScore g
    · rw [show scoreStep (a, b, w) g =
          (a + g.score / groupMaxScore g * g.weight, b + g.weight, w ++ groupWarnings g) by
        simp [scoreStep, hg]]
      rw [ih]
      rw [includedGroups_cons_pos gs hg]
      simp only [totalWeightedScore, totalPossibleWeight, includedGroups_cons_pos gs hg,
        List.map_cons, List.sum_cons, warningsFrom, Prod.mk.injEq]
      refine ⟨by ring, by ring, by simp [List.append_assoc]⟩
    · rw [show scoreStep (a, b, w) g = (a, b, w) by simp [scoreStep, hg]]
      rw [ih]
      simp only [totalWeightedScore, totalPossibleWeight, includedGroups_cons_nonpos gs hg]

/-- **C1.** For every list of check groups, the overall score computed by
`calculateScore` equals `round(totalWeightedScore / totalPossibleWeight * 100)`
where only groups with `groupMaxScore > 0` contribute
`(group.score / groupMaxScore) * group.weight` to the numerator and
`group.weight` to the denominator, the score is `0` when
`totalPossibleWeight = 0`, and the grade follows the inclusive thresholds
`90/80/70/60` for `A/B/C/D`, else `E`. -/
theorem calculateScore_overall_grade (checks : List SEOCheckGroup) :
    (calculateScore checks).overallScore = specOverallScore checks ∧
    (calculateScore checks).grade = specGrade (specOverallScore checks) := by
  have hfold := foldl_scoreStep checks 0 0 []
  unfold calculateScore
  rw [hfold]
  simp only [zero_add, List.nil_append]
  unfold specOverallScore specGrade
  constructor
  · rfl
  · rfl

/-- Nonnegative item weights keep the weight fold above its seed. -/
theorem le_foldl_add_weight (l : List SEOCheckItem) (a : ℚ)
    (hw : ∀ it ∈ l, 0 ≤ it.weight) : a ≤ l.foldl (fun sum it => sum + it.weight) a := by
  induction l generalizing a with
  | nil => simp
  | cons it rest ih =>
    rw [List.foldl_cons]
    have h1 : a ≤ a + it.weight := le_add_of_nonneg_right (hw it (by simp))
    exact h1.trans (ih (a + it.weight) fun x hx => hw x (by simp [hx]))

/-- A nonempty group whose item weights are all positive has a positive
`groupMaxScore`. -/
theorem groupMaxScore_pos (g : SEOCheckGroup)
    (hw : ∀ it ∈ g.items, 0 < it.weight) (hne : g.items ≠ []) :
    0 < groupMaxScore g := by
  unfold groupMaxScore
  cases hitems : g.items with
  | nil => exact absurd hitems hne
  | cons it rest =>
    rw [List.foldl_cons, zero_add]
    have h1 : 0 < it.weight := hw it (by simp [hitems])
    have h2 : it.weight ≤ rest.foldl (fun sum x => sum + x.weight) it.weight :=
      le_foldl_add_weight rest it.weight fun x hx => le_of_lt (hw x (by simp [hitems, hx]))
    exact h1.trans_le h2

/-- When all item weights are positive, restricting the warning collection to
the included groups loses nothing: an excluded group has no items and hence
no warnings. -/
theorem warningsFrom_included (checks : List SEOCheckGroup)
    (hw : ∀ g ∈ checks, ∀ it ∈ g.items, 0 < it.weight) :
    warningsFrom (includedGroups checks) = warningsFrom checks := by
  induction checks with
  | nil => rfl
  | cons g gs ih =>
    have hwg : ∀ it ∈ g.items, 0 < it.weight := hw g (by simp)
    have hwgs : ∀ g₂ ∈ gs, ∀ it ∈ g₂.items, 0 < it.weight := fun g₂ h2 => hw g₂ (by simp [h2])
    by_cases hg : 0 < groupMaxScore g
    · rw [includedGroups_cons_pos gs hg]
      simp only [warningsFrom, ih hwgs]
    · rw [includedGroups_cons_nonpos gs hg]
      have hnil : g.items = [] := by
        by_contra hne
        exact hg (groupMaxScore_pos g hwg hne)
      have hgw : groupWarnings g = [] := by simp [groupWarnings, hnil]
      simp only [warningsFrom, hgw, List.nil_append, ih hwgs]

/-- **C2.** For every list of check groups whose item weights are positive
(the data-model invariant `weight: positive integer`), the warnings returned
by `calculateScore` contain exactly one entry `"<group.name>: <item.advice>"`
for every item across all groups with `item.score < item.weight` and
`item.priority = high`, in group order and, within a group, in item order. -/
theorem calculateScore_warnings (checks : List SEOCheckGroup)
    (hw : ∀ g ∈ checks, ∀ it ∈ g.items, 0 < it.weight) :
    (calculateScore checks).warnings = warningsFrom checks := by
  have hfold := foldl_scoreStep checks 0 0 []
  unfold calculateScore
  rw [hfold]
  simp only [List.nil_append]
  exact warningsFrom_included checks hw

/-- Witness for `calculateScore_warnings` at a concrete input. -/
theorem calculateScore_warnings_witness :
    (∀ g ∈ warningsWitnessChecks, ∀ it ∈ g.items, 0 < it.weight) ∧
    (calculateScore warningsWitnessChecks).warnings = warningsFrom warningsWitnessChecks :=
  ⟨by decide, calculateScore_warnings warningsWitnessChecks (by decide)⟩

theorem updateFirst_append_of_none {α : Type} (p : α → Bool) (f : α → α) (l₁ l₂ : List α)
    (h : ∀ x ∈ l₁, ¬ p x) :
    updateFirst p f (l₁ ++ l₂) = l₁ ++ updateFirst p f l₂ := by
  induction l₁ with
  | nil => rfl
  | cons x xs ih =>
    have hx : ¬ p x := h x (by simp)
    simp only [List.cons_append, updateFirst, if_neg hx, List.cons.injEq, true_and]
    exact ih fun y hy => h y (by simp [hy])

theorem find?_append_of_none {α : Type} (p : α → Bool) (l₁ l₂ : List α)
    (h : ∀ x ∈ l₁, ¬ p x) : (l₁ ++ l₂).find? p = l₂.find? p := by
  rw [List.find?_append, List.find?_eq_none.mpr h]
  rfl

theorem find?_updateFirst_self {α : Type} (p : α → Bool) (f : α → α) (l : List α)
    (hf : ∀ x, p x → p (f x)) :
    (updateFirst p f l).find? p = (l.find? p).map f := by
  induction l with
  | nil => rfl
  | cons x xs ih =>
    by_cases hx : p x
    · simp [updateFirst, if_pos hx, List.find?_cons_of_pos _ hx,
        List.find?_cons_of_pos _ (hf x hx)]
    · simp [updateFirst, if_neg hx, List.find?_cons_of_neg _ hx, ih]

theorem find?_updateFirst_of_disjoint {α : Type} (p q : α → Bool) (f : α → α) (l : List α)
    (hq : ∀ x, q (f x) = q x) (hpq : ∀ x, p x → ¬ q x) :
    (updateFirst p f l).find? q = l.find? q := by
  induction l with
  | nil => rfl
  | cons x xs ih =>
    by_cases hx : p x
    · have hqx : ¬ q x := hpq x hx
      have hqfx : ¬ (q (f x) = true) := by rw [hq x]; exact hqx
      simp [updateFirst, if_pos hx, List.find?_cons_of_neg _ hqx,
        List.find?_cons_of_neg _ hqfx]
    · by_cases hqx : q x
      · simp [updateFirst, if_neg hx, List.find?_cons_of_pos _ hqx]
      · simp [updateFirst, if_neg hx, List.find?_cons_of_neg _ hqx, ih]

theorem getRateLimit_mk (ip : String) (hk : ℕ) (ts : List TaskRec) (rls : List RateRec)
    (cs : List CacheRec) :
    getRateLimit ip hk ⟨ts, rls, cs⟩ =
      rls.find? fun r => r.ip_address = ip ∧ r.hour_key = hk := rfl

/-- The per-key predicate of `getRateLimit`, characterized. -/
theorem rateKeyPred (ip : String) (hk : ℕ) (r : RateRec) :
    (fun r : RateRec => decide (r.ip_address = ip ∧ r.hour_key = hk)) r = true ↔
      r.ip_address = ip ∧ r.hour_key = hk := by
  simp

theorem updateRateLimit_tasks (ip : String) (hk now : ℕ) (db : DB) :
    (updateRateLimit ip hk now db).tasks = db.tasks := by
  unfold updateRateLimit
  split <;> rfl

theorem updateRateLimit_cache (ip : String) (hk now : ℕ) (db : DB) :
    (updateRateLimit ip hk now db).analysis_cache = db.analysis_cache := by
  unfold updateRateLimit
  split <;> rfl

theorem getRateLimit_set_limits (ip : String) (hk : ℕ) (db : DB) (L : List RateRec) :
    getRateLimit ip hk { db with rate_limits := L } =
      L.find? fun r => r.ip_address = ip ∧ r.hour_key = hk := rfl

theorem rlCount_updateRateLimit_same (ip : String) (hk now : ℕ) (db : DB) :
    rlCount ip hk (updateRateLimit ip hk now db) = rlCount ip hk db + 1 := by
  by_cases hex : (getRateLimit ip hk db).isSome
  · obtain ⟨r, hr⟩ := Option.isSome_iff_exists.mp hex
    have hupd : updateRateLimit ip hk now db =
        { db with rate_limits := updateFirst (fun r => r.ip_address = ip ∧ r.hour_key = hk) (fun r => { r with request_count := r.request_count + 1 }) db.rate_limits } := by
      unfold updateRateLimit
      rw [if_pos hex]
    rw [hupd]
    unfold rlCount
    rw [getRateLimit_set_limits]
    rw [find?_updateFirst_self (fun r : RateRec => r.ip_address = ip ∧ r.hour_key = hk) (fun r => { r with request_count := r.request_count + 1 }) db.rate_limits (fun x hx => hx)]
    have hr2 : (db.rate_limits.find? fun r : RateRec =>
        r.ip_address = ip ∧ r.hour_key = hk) = some r := hr
    rw [hr2, hr]
    rfl
  · have hnone : getRateLimit ip hk db = none := Option.not_isSome_iff_eq_none.mp hex
    have hupd : updateRateLimit ip hk now db =
        { db with rate_limits := db.rate_limits ++ [⟨ip, hk, 1, now⟩] } := by
      unfold updateRateLimit
      rw [if_neg hex]
    rw [hupd]
    unfold rlCount
    rw [getRateLimit_set_limits]
    rw [find?_append_of_none _ _ _ (List.find?_eq_none.mp hnone)]
    rw [hnone]
    simp [List.find?]

theorem getRateLimit_updateRateLimit_other (ip : String) (hk : ℕ) (ip2 : String) (hk2 now : ℕ)
    (db : DB) (hne : ¬ (ip2 = ip ∧ hk2 = hk)) :
    getRateLimit ip2 hk2 (updateRateLimit ip hk now db) = getRateLimit ip2 hk2 db := by
  by_cases hex : (getRateLimit ip hk db).isSome
  · have hupd : updateRateLimit ip hk now db =
        { db with rate_limits := updateFirst (fun r => r.ip_address = ip ∧ r.hour_key = hk) (fun r => { r with request_count := r.request_count + 1 }) db.rate_limits } := by
      unfold updateRateLimit
      rw [if_pos hex]
    have hpq2 : ∀ x : RateRec,
        (fun r : RateRec => decide (r.ip_address = ip ∧ r.hour_key = hk)) x = true →
        ¬ ((fun r : RateRec => decide (r.ip_address = ip2 ∧ r.hour_key = hk2)) x = true) := by
      intro x hx
      simp only [decide_eq_true_eq] at hx ⊢
      intro hx2
      exact hne ⟨hx2.1.symm.trans hx.1, hx2.2.symm.trans hx.2⟩
    rw [hupd, getRateLimit_set_limits,
      find?_updateFirst_of_disjoint (fun r : RateRec => r.ip_address = ip ∧ r.hour_key = hk) (fun r : RateRec => r.ip_address = ip2 ∧ r.hour_key = hk2) (fun r => { r with request_count := r.request_count + 1 }) db.rate_limits (fun x => rfl) hpq2]
    rfl
  · have hupd : updateRateLimit ip hk now db =
        { db with rate_limits := db.rate_limits ++ [⟨ip, hk, 1, now⟩] } := by
      unfold updateRateLimit
      rw [if_neg hex]
    rw [hupd, getRateLimit_set_limits, List.find?_append]
    have hsingle : ([(⟨ip, hk, 1, now⟩ : RateRec)].find?
        fun r => r.ip_address = ip2 ∧ r.hour_key = hk2) = none := by
      have hni : ¬ (ip = ip2 ∧ hk = hk2) := fun h12 => hne ⟨h12.1.symm, h12.2.symm⟩
      simp [List.find?, hni]
    rw [hsingle, Option.or_none]
    rfl

theorem rlCount_congr (ip : String) (hk : ℕ) (d1 d2 : DB)
    (h : getRateLimit ip hk d1 = getRateLimit ip hk d2) : rlCount ip hk d1 = rlCount ip hk d2 := by
  unfold rlCount
  rw [h]

theorem rateLimitOf_pos (cfg : AnalysisConfig) : 0 < rateLimitOf cfg := by
  unfold rateLimitOf
  split <;> norm_num

theorem getRateLimit_eq_none_of_no_ip (ip : String) (hk : ℕ) (db : DB)
    (h : ∀ r ∈ db.rate_limits, r.ip_address ≠ ip) : getRateLimit ip hk db = none := by
  unfold getRateLimit
  rw [List.find?_eq_none]
  intro r hr
  simp only [decide_eq_true_eq, not_and]
  intro hip
  exact absurd hip (h r hr)

theorem checkRateLimit_ok_of_lt (cfg : AnalysisConfig) (now : ℕ) (ip : String) (db : DB)
    (h : rlCount ip (hourKeyOf now) db < rateLimitOf cfg) :
    checkRateLimit cfg now ip db = .ok (updateRateLimit ip (hourKeyOf now) now db) := by
  unfold checkRateLimit
  rw [if_neg (not_le.mpr h)]

theorem checkRateLimit_err_of_le (cfg : AnalysisConfig) (now : ℕ) (ip : String) (db : DB)
    (h : rateLimitOf cfg ≤ rlCount ip (hourKeyOf now) db) :
    checkRateLimit cfg now ip db = .error (.rateLimitExceeded (rateLimitOf cfg)) := by
  unfold checkRateLimit
  rw [if_pos h]

/-- Filling one window: starting below the limit by at least the length of
the submission sequence, every submission in the window passes, the counter
rises by exactly the number of submissions, and all other counters are
untouched. -/
theorem checkRateLimitSeq_ok (cfg : AnalysisConfig) (ip : String) (hk : ℕ) :
    ∀ (ts : List ℕ) (db : DB), (∀ t ∈ ts, hourKeyOf t = hk) →
      rlCount ip hk db + ts.length ≤ rateLimitOf cfg →
      ∃ db1, checkRateLimitSeq cfg ip ts db = .ok db1 ∧
        rlCount ip hk db1 = rlCount ip hk db + ts.length ∧
        ∀ ip2 hk2, ¬ (ip2 = ip ∧ hk2 = hk) →
          getRateLimit ip2 hk2 db1 = getRateLimit ip2 hk2 db := by
  intro ts
  induction ts with
  | nil =>
    intro db _ _
    exact ⟨db, rfl, by simp, fun _ _ _ => rfl⟩
  | cons t ts ih =>
    intro db hhour hle
    have hkt : hourKeyOf t = hk := hhour t (by simp)
    have hlt : rlCount ip hk db < rateLimitOf cfg := by
      have := hle
      simp only [List.length_cons] at this
      omega
    have hstep : checkRateLimit cfg t ip db = .ok (updateRateLimit ip hk t db) := by
      rw [← hkt] at hlt ⊢
      exact checkRateLimit_ok_of_lt cfg t ip db hlt
    obtain ⟨db1, hseq, hcount, hframe⟩ :=
      ih (updateRateLimit ip hk t db) (fun x hx => hhour x (by simp [hx])) (by
        rw [rlCount_updateRateLimit_same]
        simp only [List.length_cons] at hle
        omega)
    refine ⟨db1, ?_, ?_, ?_⟩
    · simp only [checkRateLimitSeq, hstep]
      exact hseq
    · rw [hcount, rlCount_updateRateLimit_same]
      simp only [List.length_cons]
      omega
    · intro ip2 hk2 hne
      rw [hframe ip2 hk2 hne, getRateLimit_updateRateLimit_other ip hk ip2 hk2 t db hne]

/-- **C3.** `checkRateLimit` with the current counter at or above the limit
denies, throwing the error that carries the configured per-hour limit, and
performs no store write (the store is only replaced on the success path);
below the limit it increments exactly the caller's `(clientId, windowKey)`
counter and returns success.  Consequently a client with no prior entries
passes `limit` submissions within one hour window, is denied on the
`limit+1`-th submission of that window, and passes again in the next hour
window. -/
theorem checkRateLimit_spec (cfg : AnalysisConfig) (now : ℕ) (ip : String) (db : DB) :
    (rateLimitOf cfg ≤ rlCount ip (hourKeyOf now) db →
      checkRateLimit cfg now ip db = .error (.rateLimitExceeded (rateLimitOf cfg))) ∧
    (rlCount ip (hourKeyOf now) db < rateLimitOf cfg →
      ∃ db1, checkRateLimit cfg now ip db = .ok db1 ∧
        rlCount ip (hourKeyOf now) db1 = rlCount ip (hourKeyOf now) db + 1 ∧
        ∀ ip2 hk2, ¬ (ip2 = ip ∧ hk2 = hourKeyOf now) →
          getRateLimit ip2 hk2 db1 = getRateLimit ip2 hk2 db) ∧
    (∀ ts : List ℕ, ts.length = rateLimitOf cfg →
      (∀ t ∈ ts, hourKeyOf t = hourKeyOf now) →
      (∀ r ∈ db.rate_limits, r.ip_address ≠ ip) →
      ∃ db1, checkRateLimitSeq cfg ip ts db = .ok db1 ∧
        checkRateLimit cfg now ip db1 = .error (.rateLimitExceeded (rateLimitOf cfg)) ∧
        ∀ now2, hourKeyOf now2 = hourKeyOf now + 1 →
          ∃ db2, checkRateLimit cfg now2 ip db1 = .ok db2) := by
  refine ⟨checkRateLimit_err_of_le cfg now ip db, ?_, ?_⟩
  · intro hlt
    exact ⟨updateRateLimit ip (hourKeyOf now) now db,
      checkRateLimit_ok_of_lt cfg now ip db hlt,
      rlCount_updateRateLimit_same ip (hourKeyOf now) now db,
      fun ip2 hk2 hne => getRateLimit_updateRateLimit_other ip (hourKeyOf now) ip2 hk2 now db hne⟩
  · intro ts hlen hhour hnoip
    have hzero : rlCount ip (hourKeyOf now) db = 0 := by
      unfold rlCount
      rw [getRateLimit_eq_none_of_no_ip ip (hourKeyOf now) db hnoip]
      rfl
    obtain ⟨db1, hseq, hcount, hframe⟩ :=
      checkRateLimitSeq_ok cfg ip (hourKeyOf now) ts db hhour (by rw [hzero, hlen]; omega)
    refine ⟨db1, hseq, ?_, ?_⟩
    · apply checkRateLimit_err_of_le
      rw [hcount, hzero, hlen]
      omega
    · intro now2 hnow2
      apply Exists.intro (updateRateLimit ip (hourKeyOf now2) now2 db1)
      apply checkRateLimit_ok_of_lt
      have hother : ¬ (ip = ip ∧ hourKeyOf now2 = hourKeyOf now) := by
        intro hcontra
        omega
      have : getRateLimit ip (hourKeyOf now2) db1 = getRateLimit ip (hourKeyOf now2) db :=
        hframe ip (hourKeyOf now2) hother
      have hzero2 : rlCount ip (hourKeyOf now2) db1 = 0 := by
        unfold rlCount
        rw [this, getRateLimit_eq_none_of_no_ip ip (hourKeyOf now2) db hnoip]
        rfl
      rw [hzero2]
      exact rateLimitOf_pos cfg

/-- Witness for `checkRateLimit_spec`: with no weights object the limit is 5;
from an empty store, five submissions in hour window 0 pass, the sixth is
denied with limit 5, and a submission in hour window 1 passes again. -/
theorem checkRateLimit_spec_witness :
    (([10, 20, 30, 40, 50] : List ℕ).length = rateLimitOf cfgNoWeights) ∧
    (∃ db1, checkRateLimitSeq cfgNoWeights "203.0.113.7" [10, 20, 30, 40, 50] emptyDB = .ok db1 ∧
      checkRateLimit cfgNoWeights 600000 "203.0.113.7" db1 =
        .error (.rateLimitExceeded (rateLimitOf cfgNoWeights)) ∧
      ∀ now2, hourKeyOf now2 = hourKeyOf 600000 + 1 →
        ∃ db2, checkRateLimit cfgNoWeights now2 "203.0.113.7" db1 = .ok db2) :=
  ⟨by decide,
    (checkRateLimit_spec cfgNoWeights 600000 "203.0.113.7" emptyDB).2.2
      [10, 20, 30, 40, 50] (by decide) (by decide) (by decide)⟩

/-- **C10.** The per-hour limit enforced on every submission is 20 exactly
when the orchestrator's configuration contains a weights object and 5
otherwise; it is computed from the configuration alone, so two clients with
equal current counters are denied or allowed alike — no client identity or
tier input enters the decision. -/
theorem checkRateLimit_tier (cfg : AnalysisConfig) (now : ℕ) (ip ip2 : String) (db : DB) :
    ((∃ e, checkRateLimit cfg now ip db = .error e) ↔
      (if cfg.weights.isSome then 20 else 5) ≤ rlCount ip (hourKeyOf now) db) ∧
    (rlCount ip (hourKeyOf now) db = rlCount ip2 (hourKeyOf now) db →
      ((∃ e, checkRateLimit cfg now ip db = .error e) ↔
        (∃ e, checkRateLimit cfg now ip2 db = .error e))) := by
  have key : ∀ ip3 : String, ((∃ e, checkRateLimit cfg now ip3 db = .error e) ↔
      (if cfg.weights.isSome then 20 else 5) ≤ rlCount ip3 (hourKeyOf now) db) := by
    intro ip3
    constructor
    · intro ⟨e, he⟩
      by_contra hlt
      rw [checkRateLimit_ok_of_lt cfg now ip3 db (not_le.mp hlt)] at he
      exact Except.noConfusion he
    · intro hle
      exact ⟨.rateLimitExceeded (rateLimitOf cfg), checkRateLimit_err_of_le cfg now ip3 db hle⟩
  refine ⟨key ip, ?_⟩
  intro hcounts
  rw [key ip, key ip2, hcounts]

/-- Witness for `checkRateLimit_tier`: two distinct clients with equal (zero)
counters in the empty store are treated alike. -/
theorem checkRateLimit_tier_witness :
    rlCount "198.51.100.1" (hourKeyOf 0) emptyDB = rlCount "198.51.100.2" (hourKeyOf 0) emptyDB ∧
    ((∃ e, checkRateLimit cfgWithWeights 0 "198.51.100.1" emptyDB = .error e) ↔
      (∃ e, checkRateLimit cfgWithWeights 0 "198.51.100.2" emptyDB = .error e)) :=
  ⟨by decide,
    (checkRateLimit_tier cfgWithWeights 0 "198.51.100.1" "198.51.100.2" emptyDB).2 (by decide)⟩

/-- Updating the status of a task rewrites exactly the first row carrying
its id, by the field assignments of `applyStatusUpdate`. -/
theorem getTask_updateTaskStatus_self (st : TaskStatus) (fu : Option String) (os : Option ℤ)
    (g : Option Grade) (ad em : Option String) (id : String) (now : ℕ) (db : DB) :
    getTask id (updateTaskStatus st fu os g ad em id now db) =
      (getTask id db).map (applyStatusUpdate st fu os g ad em now) := by
  unfold getTask updateTaskStatus
  exact find?_updateFirst_self (fun t : TaskRec => t.id = id)
    (applyStatusUpdate st fu os g ad em now) db.tasks (fun x hx => hx)

/-- **C7 counterexample.** The fingerprint is computed from the raw URL
string: a trailing space, or upper-casing the scheme, changes it, so two
URLs that differ only in trailing whitespace or scheme/host case do not
receive the same fingerprint. -/
theorem hashUrl_not_normalized :
    hashUrl "https://example.com" ≠ hashUrl "https://example.com " ∧
    hashUrl "https://example.com" ≠ hashUrl "HTTPS://example.com" := by
  constructor <;> decide

/-- **C7 (amended).** The fingerprint computed before the dedup lookup is
the hash of the raw URL string, with no normalization: two URLs receive the
same fingerprint exactly when they are byte-identical (the SHA-256 digest
being modelled as collision-free), so trailing-whitespace or scheme-case
variants of a URL are deduplicated separately. -/
theorem hashUrl_raw_iff (u1 u2 : String) : hashUrl u1 = hashUrl u2 ↔ u1 = u2 := by
  constructor
  · intro h
    unfold hashUrl at h
    have hd : ("sha256:" ++ u1).data = ("sha256:" ++ u2).data := by rw [h]
    rw [String.data_append, String.data_append] at hd
    exact String.ext (List.append_cancel_left hd)
  · intro h
    rw [h]

/-- **C8 counterexample.** A cache entry two hours old whose task is `done`:
under the claimed ~24-hour configurable freshness TTL this is a hit, but the
code returns a miss — its freshness window is hard-coded to one hour. -/
theorem getCachedAnalysis_not_24h :
    (∃ c ∈ staleCacheDB.analysis_cache, c.url_hash = hashUrl "https://example.com" ∧
      7200000 - c.cached_at < 24 * hourMs) ∧
    (∃ t ∈ staleCacheDB.tasks, t.id = "task-1" ∧ t.status = TaskStatus.done) ∧
    getCachedAnalysis 7200000 (hashUrl "https://example.com") staleCacheDB = none := by
  refine ⟨by decide, by decide, by decide⟩

/-- **C8 (amended).** `getCachedAnalysis` hits iff a cache entry for the
fingerprint exists whose `cached_at` lies within the last hour — the window
is hard-coded to one hour rather than a configurable TTL on the order of 24
hours — and whose referenced task currently has status `done`; in
particular a fresh entry whose task has been deleted externally degrades to
a miss, not an error.  The uniqueness hypothesis is the invariant
`insertCache` maintains: at most one cache row per fingerprint. -/
theorem getCachedAnalysis_hit_iff (now : ℕ) (h : String) (db : DB)
    (huniq : ∀ c1 ∈ db.analysis_cache, ∀ c2 ∈ db.analysis_cache,
      c1.url_hash = h → c2.url_hash = h → c1 = c2) :
    (getCachedAnalysis now h db).isSome ↔
      ∃ c ∈ db.analysis_cache, c.url_hash = h ∧ now - hourMs < c.cached_at ∧
        ∃ t ∈ db.tasks, t.id = c.task_id ∧ t.status = TaskStatus.done := by
  unfold getCachedAnalysis
  cases hfc : db.analysis_cache.find? fun c => c.url_hash = h ∧ now - hourMs < c.cached_at with
  | none =>
    simp only [Option.isSome_none, Bool.false_eq_true, false_iff]
    intro ⟨c, hc, hchash, hcfresh, _⟩
    have := List.find?_eq_none.mp hfc c hc
    simp only [decide_eq_true_eq] at this
    exact this ⟨hchash, hcfresh⟩
  | some cache =>
    have hcmem : cache ∈ db.analysis_cache := List.mem_of_find?_eq_some hfc
    have hcprop := List.find?_some hfc
    simp only [decide_eq_true_eq] at hcprop
    show (match db.tasks.find? fun t : TaskRec => t.id = cache.task_id ∧ t.status = TaskStatus.done with
      | some task => some task.id
      | none => (none : Option String)).isSome = true ↔ _
    cases hft : db.tasks.find? fun t => t.id = cache.task_id ∧ t.status = TaskStatus.done with
    | none =>
      show (none : Option String).isSome = true ↔ _
      simp only [Option.isSome_none, Bool.false_eq_true, false_iff]
      intro ⟨c, hc, hchash, hcfresh, t, ht, htid, htstat⟩
      have hceq : c = cache := huniq c hc cache hcmem hchash hcprop.1
      have := List.find?_eq_none.mp hft t ht
      simp only [decide_eq_true_eq] at this
      exact this ⟨by rw [← hceq]; exact htid, htstat⟩
    | some task =>
      show (some task.id).isSome = true ↔ _
      simp only [Option.isSome_some, true_iff]
      have htmem : task ∈ db.tasks := List.mem_of_find?_eq_some hft
      have htprop := List.find?_some hft
      simp only [decide_eq_true_eq] at htprop
      exact ⟨cache, hcmem, hcprop.1, hcprop.2, task, htmem, htprop.1, htprop.2⟩

/-- Witness for `getCachedAnalysis_hit_iff` at a concrete fresh store. -/
theorem getCachedAnalysis_hit_iff_witness :
    (∀ c1 ∈ freshCacheDB.analysis_cache, ∀ c2 ∈ freshCacheDB.analysis_cache,
      c1.url_hash = hashUrl "https://example.com" →
      c2.url_hash = hashUrl "https://example.com" → c1 = c2) ∧
    ((getCachedAnalysis 2000 (hashUrl "https://example.com") freshCacheDB).isSome ↔
      ∃ c ∈ freshCacheDB.analysis_cache, c.url_hash = hashUrl "https://example.com" ∧
        2000 - hourMs < c.cached_at ∧
        ∃ t ∈ freshCacheDB.tasks, t.id = c.task_id ∧ t.status = TaskStatus.done) :=
  ⟨by decide,
    getCachedAnalysis_hit_iff 2000 (hashUrl "https://example.com") freshCacheDB (by decide)⟩

/-- **C9.** `created_at` is written once at insertion and never touched by
`updateTaskStatus`, but `completed_at` is assigned unconditionally on every
status update: the queued-to-running transition already stamps it, where
the claim requires it to remain unset until the `done`/`failed` transition. -/
theorem startRunning_stamps_completed_at :
    (getTask "task-1" queuedTaskDB).map TaskRec.completed_at = some none ∧
    (getTask "task-1" queuedTaskDB).map TaskRec.status = some TaskStatus.queued ∧
    (getTask "task-1" (startRunning "task-1" 2000 queuedTaskDB)).map TaskRec.status =
      some TaskStatus.running ∧
    (getTask "task-1" (startRunning "task-1" 2000 queuedTaskDB)).map TaskRec.completed_at =
      some (some 2000) ∧
    (getTask "task-1" (startRunning "task-1" 2000 queuedTaskDB)).map TaskRec.created_at =
      some 1000 := by
  refine ⟨by decide, by decide, by decide, by decide, by decide⟩

/-- **C5 counterexample.** An asynchronous failure whose error message is
the empty string marks the task `failed` but leaves `errorMessage` unset:
`updateTaskStatus` guards the assignment with JavaScript truthiness and the
empty string is falsy, so the claim that every failed task carries a
non-empty `errorMessage` does not hold of the code. -/
theorem finishFailure_empty_message_unset :
    (getTask "task-1" (finishFailure "task-1" "" 3000 runningTaskDB)).map TaskRec.status =
      some TaskStatus.failed ∧
    (getTask "task-1" (finishFailure "task-1" "" 3000 runningTaskDB)).map TaskRec.error_message =
      some none := by
  constructor <;> decide

/-- **C5 (amended).** `InvalidInput` and `RateLimited` are synchronous:
`createTask` returns them directly with the store unchanged, before any task
record exists.  A failure during asynchronous execution never reaches the
caller of `createTask` — it is consumed by the background `.catch` handler,
modelled by `finishFailure` — and leaves the task `failed`, not `running`;
`errorMessage` is set to the failure message whenever that message is
non-empty (an empty failure message leaves the field unset). -/
theorem failure_semantics (cfg : AnalysisConfig) (now : ℕ)
    (url ip ua newId taskId msg : String) (db : DB) :
    (¬ isValidUrl url → createTask cfg now url ip ua newId db = (.error .invalidUrl, db)) ∧
    (isValidUrl url → rateLimitOf cfg ≤ rlCount ip (hourKeyOf now) db →
      createTask cfg now url ip ua newId db =
        (.error (.rateLimitExceeded (rateLimitOf cfg)), db)) ∧
    (msg ≠ "" → (getTask taskId db).isSome →
      (getTask taskId (finishFailure taskId msg now db)).map TaskRec.status =
        some TaskStatus.failed ∧
      (getTask taskId (finishFailure taskId msg now db)).map TaskRec.error_message =
        some (some msg)) := by
  refine ⟨?_, ?_, ?_⟩
  · intro hv
    unfold createTask
    rw [if_pos hv]
  · intro hv hle
    unfold createTask
    rw [if_neg (not_not_intro hv), checkRateLimit_err_of_le cfg now ip db hle]
  · intro hm hex
    obtain ⟨t, ht⟩ := Option.isSome_iff_exists.mp hex
    have hupd : getTask taskId (finishFailure taskId msg now db) =
        (getTask taskId db).map (applyStatusUpdate .failed none none none none (some msg) now) :=
      getTask_updateTaskStatus_self .failed none none none none (some msg) taskId now db
    have hmsg : strTruthy (some msg) = true := by
      cases hb : msg.isEmpty
      · simp [strTruthy, hb]
      · exact absurd ((String.isEmpty_iff msg).mp hb) hm
    constructor
    · rw [hupd, ht]
      rfl
    · rw [hupd, ht]
      show some (applyStatusUpdate TaskStatus.failed none none none none (some msg) now
        t).error_message = some (some msg)
      unfold applyStatusUpdate
      rw [if_pos hmsg]

/-- Witness for `failure_semantics` at a concrete running task and a
non-empty failure message. -/
theorem failure_semantics_witness :
    ("Analysis timeout" ≠ "") ∧ (getTask "task-1" runningTaskDB).isSome ∧
    ((getTask "task-1" (finishFailure "task-1" "Analysis timeout" 3000 runningTaskDB)).map
        TaskRec.status = some TaskStatus.failed ∧
      (getTask "task-1" (finishFailure "task-1" "Analysis timeout" 3000 runningTaskDB)).map
        TaskRec.error_message = some (some "Analysis timeout")) :=
  ⟨by decide, by decide,
    (failure_semantics cfgWithWeights 3000 "http://a.com" "198.51.100.9" "UA" "task-9" "task-1"
      "Analysis timeout" runningTaskDB).2.2 (by decide) (by decide)⟩

/-- **C6 counterexample.** A submission whose URL fails validation:
`createTask` throws `InvalidInput` before consulting the rate limiter, so no
`RateLimitWindow` entry is created or incremented for the attempt — the
claim that rate limiting happens before or independently of validation does
not hold of the code. -/
theorem createTask_invalid_skips_rateLimit :
    createTask cfgWithWeights 1700000000000 "ftp://example.com" "203.0.113.7" "UA" "task-1"
      emptyDB = (.error .invalidUrl, emptyDB) ∧
    (createTask cfgWithWeights 1700000000000 "ftp://example.com" "203.0.113.7" "UA" "task-1"
      emptyDB).2.rate_limits = [] := by
  constructor
  · rfl
  · rfl

/-- **C6 (amended).** Validation precedes rate limiting: an attempt rejected
as `InvalidInput` leaves the rate-limit table untouched, while every attempt
that passes URL validation consults the rate limiter — below the limit the
`(clientId, windowKey)` counter is created or incremented by exactly one,
regardless of whether the submission is then answered from the dedup cache
or creates a new task, and at the limit the attempt is denied. -/
theorem createTask_rateLimit_semantics (cfg : AnalysisConfig) (now : ℕ)
    (url ip ua newId : String) (db : DB) :
    (¬ isValidUrl url → createTask cfg now url ip ua newId db = (.error .invalidUrl, db)) ∧
    (isValidUrl url → rlCount ip (hourKeyOf now) db < rateLimitOf cfg →
      rlCount ip (hourKeyOf now) (createTask cfg now url ip ua newId db).2 =
        rlCount ip (hourKeyOf now) db + 1) ∧
    (isValidUrl url → rateLimitOf cfg ≤ rlCount ip (hourKeyOf now) db →
      createTask cfg now url ip ua newId db =
        (.error (.rateLimitExceeded (rateLimitOf cfg)), db)) := by
  refine ⟨?_, ?_, ?_⟩
  · intro hv
    unfold createTask
    rw [if_pos hv]
  · intro hv hlt
    unfold createTask
    rw [if_neg (not_not_intro hv), checkRateLimit_ok_of_lt cfg now ip db hlt]
    cases hc : getCachedAnalysis now (hashUrl url) (updateRateLimit ip (hourKeyOf now) now db) with
    | some tid =>
      simp only [hc]
      exact rlCount_updateRateLimit_same ip (hourKeyOf now) now db
    | none =>
      simp only [hc]
      have hins : getRateLimit ip (hourKeyOf now)
          (insertTask newId .queued url ip ua now (updateRateLimit ip (hourKeyOf now) now db)) =
          getRateLimit ip (hourKeyOf now) (updateRateLimit ip (hourKeyOf now) now db) := rfl
      rw [rlCount_congr ip (hourKeyOf now) _ _ hins]
      exact rlCount_updateRateLimit_same ip (hourKeyOf now) now db
  · intro hv hle
    unfold createTask
    rw [if_neg (not_not_intro hv), checkRateLimit_err_of_le cfg now ip db hle]

/-- Witness for `createTask_rateLimit_semantics`: a valid URL below the
limit bumps the caller's counter from 0 to 1. -/
theorem createTask_rateLimit_semantics_witness :
    (isValidUrl "http://a.com" : Prop) ∧
    rlCount "203.0.113.7" (hourKeyOf 0) emptyDB < rateLimitOf cfgNoWeights ∧
    rlCount "203.0.113.7" (hourKeyOf 0)
      (createTask cfgNoWeights 0 "http://a.com" "203.0.113.7" "UA" "task-1" emptyDB).2 =
      rlCount "203.0.113.7" (hourKeyOf 0) emptyDB + 1 :=
  ⟨by decide, by decide,
    (createTask_rateLimit_semantics cfgNoWeights 0 "http://a.com" "203.0.113.7" "UA" "task-1"
      emptyDB).2.1 (by decide) (by decide)⟩

theorem updateFirst_singleton_pos {α : Type} (p : α → Bool) (f : α → α) (x : α)
    (hx : p x) : updateFirst p f [x] = [f x] := by
  simp [updateFirst, hx]

theorem getCachedAnalysis_congr (now : ℕ) (h : String) (d1 d2 : DB)
    (ht : d1.tasks = d2.tasks) (hc : d1.analysis_cache = d2.analysis_cache) :
    getCachedAnalysis now h d1 = getCachedAnalysis now h d2 := by
  unfold getCachedAnalysis
  rw [ht, hc]

/-- A cache hit names a task that exists with status `done`. -/
theorem getCachedAnalysis_some_task (now : ℕ) (h tid : String) (db : DB)
    (hsome : getCachedAnalysis now h db = some tid) :
    ∃ t ∈ db.tasks, t.id = tid ∧ t.status = TaskStatus.done := by
  unfold getCachedAnalysis at hsome
  cases hfc : db.analysis_cache.find? fun c : CacheRec =>
      c.url_hash = h ∧ now - hourMs < c.cached_at with
  | none =>
    simp only [hfc] at hsome
    exact Option.noConfusion hsome
  | some cache =>
    simp only [hfc] at hsome
    cases hft : db.tasks.find? fun t : TaskRec =>
        t.id = cache.task_id ∧ t.status = TaskStatus.done with
    | none =>
      simp only [hft] at hsome
      exact Option.noConfusion hsome
    | some task =>
      simp only [hft, Option.some.injEq] at hsome
      have htmem : task ∈ db.tasks := List.mem_of_find?_eq_some hft
      have htprop := List.find?_some hft
      simp only [decide_eq_true_eq] at htprop
      exact ⟨task, htmem, hsome, htprop.2⟩

/-- Inversion of a successful `createTask` whose returned id is fresh: the
call went through the task-creating branch, so the returned id is the
supplied one and the store gained exactly the rate-limit bump and the new
queued task. -/
theorem createTask_ok_fresh (cfg : AnalysisConfig) (now : ℕ) (url ip ua newId : String)
    (db : DB) (tid : String) (db1 : DB)
    (hok : createTask cfg now url ip ua newId db = (.ok tid, db1))
    (hnew : ∀ t ∈ db.tasks, t.id ≠ tid) :
    tid = newId ∧
    db1 = insertTask newId .queued url ip ua now (updateRateLimit ip (hourKeyOf now) now db) := by
  unfold createTask at hok
  by_cases hv : isValidUrl url
  · rw [if_neg (not_not_intro hv)] at hok
    cases hcr : checkRateLimit cfg now ip db with
    | error e =>
      simp only [hcr] at hok
      exact Except.noConfusion (congrArg Prod.fst hok)
    | ok dbA =>
      simp only [hcr] at hok
      have hAeq : dbA = updateRateLimit ip (hourKeyOf now) now db := by
        unfold checkRateLimit at hcr
        by_cases hle : rateLimitOf cfg ≤ rlCount ip (hourKeyOf now) db
        · rw [if_pos hle] at hcr
          exact absurd hcr (by simp)
        · rw [if_neg hle] at hcr
          injection hcr with hcr2
          exact hcr2.symm
      cases hca : getCachedAnalysis now (hashUrl url) dbA with
      | some t2 =>
        simp only [hca, Prod.mk.injEq, Except.ok.injEq] at hok
        obtain ⟨t, htmem, htid, _⟩ := getCachedAnalysis_some_task now (hashUrl url) t2 dbA hca
        have htasks : dbA.tasks = db.tasks := by
          rw [hAeq]
          exact updateRateLimit_tasks ip (hourKeyOf now) now db
        rw [htasks] at htmem
        exact absurd (htid.trans hok.1) (hnew t htmem)
      | none =>
        simp only [hca, Prod.mk.injEq, Except.ok.injEq] at hok
        rw [← hAeq]
        exact ⟨hok.1.symm, hok.2.symm⟩
  · rw [if_pos hv] at hok
    exact absurd hok (by simp)

/-- Evaluation of `createTask` on a cache hit: the cached task id is
returned and the only store change is the rate-limit bump. -/
theorem createTask_cache_hit (cfg : AnalysisConfig) (now : ℕ) (url ip ua newId : String)
    (db : DB) (tid : String)
    (hv : isValidUrl url)
    (hlt : rlCount ip (hourKeyOf now) db < rateLimitOf cfg)
    (hca : getCachedAnalysis now (hashUrl url) (updateRateLimit ip (hourKeyOf now) now db)
      = some tid) :
    createTask cfg now url ip ua newId db = (.ok tid, updateRateLimit ip (hourKeyOf now) now db) := by
  unfold createTask
  rw [if_neg (not_not_intro hv), checkRateLimit_ok_of_lt cfg now ip db hlt]
  simp only [hca]

/-- Direct evaluation of the cache lookup on the store shape produced by a
completed analysis: prefix entries miss the fingerprint, prefix tasks miss
the id, the final cache row is fresh, and the final task is `done`. -/
theorem getCachedAnalysis_post (now td : ℕ) (h url tid : String) (db : DB)
    (C : List CacheRec) (T : List TaskRec) (tDone : TaskRec)
    (htasks : db.tasks = T ++ [tDone])
    (hcache : db.analysis_cache = C ++ [⟨h, url, tid, td⟩])
    (hC : ∀ x ∈ C, x.url_hash ≠ h)
    (hT : ∀ t ∈ T, t.id ≠ tid)
    (hfresh : now - hourMs < td)
    (hid : tDone.id = tid) (hstat : tDone.status = TaskStatus.done) :
    getCachedAnalysis now h db = some tid := by
  unfold getCachedAnalysis
  rw [hcache, htasks]
  rw [find?_append_of_none _ C _ (fun x hx => by
    simp only [decide_eq_true_eq]
    exact fun hand => hC x hx hand.1)]
  have hpred : (fun c : CacheRec => decide (c.url_hash = h ∧ now - hourMs < c.cached_at))
      (⟨h, url, tid, td⟩ : CacheRec) = true := by
    simp [hfresh]
  rw [List.find?_cons_of_pos (p := fun c : CacheRec => c.url_hash = h ∧ now - hourMs < c.cached_at) ([] : List CacheRec) hpred]
  show (match (T ++ [tDone]).find? fun t : TaskRec => t.id = tid ∧ t.status = TaskStatus.done with
    | some task => some task.id
    | none => (none : Option String)) = some tid
  rw [find?_append_of_none _ T _ (fun t ht => by
    simp only [decide_eq_true_eq]
    exact fun hand => hT t ht hand.1)]
  have hpred2 : (fun t : TaskRec => decide (t.id = tid ∧ t.status = TaskStatus.done))
      tDone = true := by
    simp [hid, hstat]
  rw [List.find?_cons_of_pos (p := fun t : TaskRec => t.id = tid ∧ t.status = TaskStatus.done) ([] : List TaskRec) hpred2]
  show some tDone.id = some tid
  rw [hid]

/-- **C4.** For two submissions with fingerprint-equal URLs: the first
creates a fresh task; after its background analysis runs and completes
successfully (running at `tr`, done and cached at `td`), a second submission
at `t2` within the freshness window that passes validation and rate limiting
returns the very task id handed out by the first submission and appends no
new task record to the store. -/
theorem createTask_dedup (cfg : AnalysisConfig) (t1 tr td t2 : ℕ)
    (url1 url2 ip1 ip2 ua1 ua2 id1 newId2 finalUrl data : String) (sc : ℤ) (gr : Grade)
    (db0 db1 db2 : DB)
    (hsubmit1 : createTask cfg t1 url1 ip1 ua1 id1 db0 = (.ok id1, db1))
    (hnew : ∀ t ∈ db0.tasks, t.id ≠ id1)
    (hdb2 : db2 = finishSuccess id1 finalUrl sc gr data (hashUrl url1) url1 td
      (startRunning id1 tr db1))
    (hvalid2 : isValidUrl url2)
    (hhash : hashUrl url2 = hashUrl url1)
    (hfresh : t2 - hourMs < td)
    (hrl2 : rlCount ip2 (hourKeyOf t2) db2 < rateLimitOf cfg) :
    (createTask cfg t2 url2 ip2 ua2 newId2 db2).1 = .ok id1 ∧
    (createTask cfg t2 url2 ip2 ua2 newId2 db2).2.tasks = db2.tasks := by
  obtain ⟨-, hdb1⟩ := createTask_ok_fresh cfg t1 url1 ip1 ua1 id1 db0 id1 db1 hsubmit1 hnew
  have hAnew : ∀ t ∈ (updateRateLimit ip1 (hourKeyOf t1) t1 db0).tasks, t.id ≠ id1 := by
    intro t ht
    rw [updateRateLimit_tasks] at ht
    exact hnew t ht
  have hdb1tasks : db1.tasks = (updateRateLimit ip1 (hourKeyOf t1) t1 db0).tasks ++
      [⟨id1, .queued, url1, none, none, none, none, none, ip1, ua1, t1, none⟩] := by
    rw [hdb1]
    rfl
  have hpnew : (fun t : TaskRec => decide (t.id = id1))
      (⟨id1, .queued, url1, none, none, none, none, none, ip1, ua1, t1, none⟩ : TaskRec) = true := by
    simp
  have hAnot : ∀ t ∈ (updateRateLimit ip1 (hourKeyOf t1) t1 db0).tasks,
      ¬ ((fun t : TaskRec => decide (t.id = id1)) t = true) := by
    intro t ht
    simp only [decide_eq_true_eq]
    exact hAnew t ht
  have hruntasks : (startRunning id1 tr db1).tasks =
      (updateRateLimit ip1 (hourKeyOf t1) t1 db0).tasks ++
        [applyStatusUpdate .running none none none none none tr
          ⟨id1, .queued, url1, none, none, none, none, none, ip1, ua1, t1, none⟩] := by
    show updateFirst (fun t : TaskRec => t.id = id1)
      (applyStatusUpdate .running none none none none none tr) db1.tasks = _
    rw [hdb1tasks, updateFirst_append_of_none _ _ _ _ hAnot,
      updateFirst_singleton_pos (fun t : TaskRec => t.id = id1)
        (applyStatusUpdate .running none none none none none tr)
        (⟨id1, .queued, url1, none, none, none, none, none, ip1, ua1, t1, none⟩ : TaskRec) hpnew]
  have hdb2tasks : db2.tasks =
      (updateRateLimit ip1 (hourKeyOf t1) t1 db0).tasks ++
        [applyStatusUpdate .done (some finalUrl) (some sc) (some gr) (some data) none td
          (applyStatusUpdate .running none none none none none tr
            ⟨id1, .queued, url1, none, none, none, none, none, ip1, ua1, t1, none⟩)] := by
    rw [hdb2]
    show updateFirst (fun t : TaskRec => t.id = id1)
      (applyStatusUpdate .done (some finalUrl) (some sc) (some gr) (some data) none td)
      (startRunning id1 tr db1).tasks = _
    rw [hruntasks, updateFirst_append_of_none _ _ _ _ hAnot,
      updateFirst_singleton_pos (fun t : TaskRec => t.id = id1)
        (applyStatusUpdate .done (some finalUrl) (some sc) (some gr) (some data) none td)
        (applyStatusUpdate .running none none none none none tr
          (⟨id1, .queued, url1, none, none, none, none, none, ip1, ua1, t1, none⟩ : TaskRec)) hpnew]
  have hdb2cache : db2.analysis_cache =
      ((startRunning id1 tr db1).analysis_cache.filter fun c => c.url_hash ≠ hashUrl url1) ++
        [⟨hashUrl url1, url1, id1, td⟩] := by
    rw [hdb2]
    rfl
  have hCnot : ∀ x ∈ ((startRunning id1 tr db1).analysis_cache.filter
      fun c => c.url_hash ≠ hashUrl url1), x.url_hash ≠ hashUrl url1 := by
    intro x hx
    have := (List.mem_filter.mp hx).2
    simpa using this
  have hca : getCachedAnalysis t2 (hashUrl url2)
      (updateRateLimit ip2 (hourKeyOf t2) t2 db2) = some id1 := by
    rw [hhash]
    rw [getCachedAnalysis_congr t2 (hashUrl url1) _ db2
      (updateRateLimit_tasks ip2 (hourKeyOf t2) t2 db2)
      (updateRateLimit_cache ip2 (hourKeyOf t2) t2 db2)]
    exact getCachedAnalysis_post t2 td (hashUrl url1) url1 id1 db2
      ((startRunning id1 tr db1).analysis_cache.filter fun c => c.url_hash ≠ hashUrl url1)
      (updateRateLimit ip1 (hourKeyOf t1) t1 db0).tasks
      (applyStatusUpdate .done (some finalUrl) (some sc) (some gr) (some data) none td
        (applyStatusUpdate .running none none none none none tr
          ⟨id1, .queued, url1, none, none, none, none, none, ip1, ua1, t1, none⟩))
      hdb2tasks hdb2cache hCnot hAnew hfresh rfl rfl
  have hfinal := createTask_cache_hit cfg t2 url2 ip2 ua2 newId2 db2 id1 hvalid2 hrl2 hca
  rw [hfinal]
  exact ⟨rfl, updateRateLimit_tasks ip2 (hourKeyOf t2) t2 db2⟩

/-- Witness for `createTask_dedup` on a concrete two-submission run. -/
theorem createTask_dedup_witness :
    (isValidUrl "http://a.com" : Prop) ∧
    (createTask cfgWithWeights 2000 "http://a.com" "203.0.113.7" "UA" "task-2" dedupDB2).1 =
      .ok "task-1" ∧
    (createTask cfgWithWeights 2000 "http://a.com" "203.0.113.7" "UA" "task-2" dedupDB2).2.tasks =
      dedupDB2.tasks :=
  ⟨by decide,
    createTask_dedup cfgWithWeights 1000 1200 1500 2000 "http://a.com" "http://a.com"
      "203.0.113.7" "203.0.113.7" "UA" "UA" "task-1" "task-2" "http://a.com/" "checks" 80 Grade.B
      emptyDB dedupDB1 dedupDB2 (by rfl) (by decide) rfl (by decide) rfl (by decide) (by decide)⟩

end SEOAnalysis
